import Mathlib

/-!
Shallow embedding of the automation core of `backend/app/services/automation.py`
(the Wally repository): UI element resolution, batch add-to-cart, viewport
scrolling, the reorder loop, and the delivery date/time preference parser.
Python strings are modelled as `List Char` (the inputs in question are ASCII),
fallible operations as `Option`/`Except`, and the stateful UI driver as an
explicit environment of pure lookup functions.
-/

namespace Wally

/-! ## String helpers

These model the Python string and regex operations the source uses:
`str.lower`, `str.strip`, substring containment (`in`), `re.split` over the
pattern `[- ]to[ ]`, and `re.match` over the pattern `(\d+)\s*(am|pm)`.
Both regexes are of the form "greedy star followed by a literal that cannot
overlap the starred class", so their backtracking semantics collapse to the
deterministic maximal-munch scans written here. -/

def isPySpace (c : Char) : Bool :=
  c = ' ' || c = '\t' || c = '\n' || c = '\r' || c = Char.ofNat 11 || c = Char.ofNat 12

def pyLower (cs : List Char) : List Char := cs.map Char.toLower

def pyStrip (cs : List Char) : List Char :=
  ((cs.dropWhile isPySpace).reverse.dropWhile isPySpace).reverse

def isPrefixL : List Char → List Char → Bool
  | [], _ => true
  | _ :: _, [] => false
  | p :: ps, c :: cs => p = c && isPrefixL ps cs

/-- Python substring containment `pat in cs`. -/
def containsSub (pat cs : List Char) : Bool :=
  match cs with
  | [] => pat.isEmpty
  | _ :: cs2 => isPrefixL pat cs || containsSub pat cs2

/-- Python `int` applied to a nonempty decimal digit string. -/
def digitsToNat (ds : List Char) : Nat :=
  ds.foldl (fun n c => n * 10 + (c.toNat - 48)) 0

/-- Does a match of the pattern `[- ]to[ ]` start at the head of `cs`:
a dash-or-space, then literal `to`, then a space?  Note that a bare dash on
its own is NOT a match of this pattern. -/
def isSepAt (cs : List Char) : Bool :=
  (cs[0]? = some '-' || cs[0]? = some ' ') && cs[1]? = some 't'
    && cs[2]? = some 'o' && cs[3]? = some ' '

/-- `re.split` with the source pattern `[- ]to[ ]`: split at the leftmost,
non-overlapping four-character matches.  Fuel-driven scan; one unit of fuel is
consumed per character, so fuel equal to the input length always suffices. -/
def reSplitDashToF : Nat → List Char → List Char → List (List Char)
  | 0, acc, cs => [acc.reverse ++ cs]
  | _ + 1, acc, [] => [acc.reverse]
  | fuel + 1, acc, c :: cs =>
    if isSepAt (c :: cs) then acc.reverse :: reSplitDashToF fuel [] (cs.drop 3)
    else reSplitDashToF fuel (c :: acc) cs

/-- The split of the whole input; the fuel equals the input length, which each
step strictly consumes, so it never runs out. -/
def reSplitDashTo (cs : List Char) : List (List Char) :=
  reSplitDashToF cs.length [] cs

/-- `re.match` with the source pattern `(\d+)\s*(am|pm)`: a nonempty maximal
digit prefix, maximal whitespace, then literally `am` or `pm`.  Returns the
captured hour digits (as a number) and whether the period is `pm`. -/
def matchTimePrefix (cs : List Char) : Option (Nat × Bool) :=
  let ds := cs.takeWhile Char.isDigit
  let rest := (cs.dropWhile Char.isDigit).dropWhile isPySpace
  if ds.isEmpty then none
  else
    match rest with
    | 'a' :: 'm' :: _ => some (digitsToNat ds, false)
    | 'p' :: 'm' :: _ => some (digitsToNat ds, true)
    | _ => none

/-- The hour-to-minutes conversion of `_parse_time_to_minutes` after its
regex match: am maps hour 12 to 0, pm adds 12 to any hour other than 12. -/
def parseTimeCore (cs : List Char) : Option Nat :=
  match matchTimePrefix cs with
  | none => none
  | some (h, false) => some ((if h = 12 then 0 else h) * 60)
  | some (h, true) => some ((if h = 12 then h else h + 12) * 60)

/-- `_parse_time_to_minutes` (automation.py lines 1863-1901): lowercase and
strip, take the first `re.split` component when the input contains a dash or
the substring `" to "`, then match `(\d+)\s*(am|pm)` at the start. -/
def parse_time_to_minutes (s : String) : Option Nat :=
  let t := pyStrip (pyLower s.data)
  let t2 :=
    if containsSub ['-'] t || containsSub [' ', 't', 'o', ' '] t then
      pyStrip ((reSplitDashTo t).headD [])
    else t
  parseTimeCore t2

/-- `_parse_time_range` (automation.py lines 1903-1932): split on the pattern
`[- ]to[ ]`, require exactly two components, and parse both ends. -/
def parse_time_range (s : String) : Option (Nat × Nat) :=
  let t := pyStrip (pyLower s.data)
  match reSplitDashTo t with
  | [a, b] =>
    match parse_time_to_minutes (String.mk (pyStrip a)),
          parse_time_to_minutes (String.mk (pyStrip b)) with
    | some x, some y => some (x, y)
    | _, _ => none
  | _ => none

/-- `_time_falls_in_range` (automation.py lines 1934-1962): inclusive
membership of a parsed specific time in a parsed range. -/
def time_falls_in_range (t r : String) : Bool :=
  match parse_time_to_minutes t with
  | none => false
  | some m =>
    match parse_time_range r with
    | none => false
    | some (a, b) => decide (a ≤ m) && decide (m ≤ b)

/-! ## Element resolver

`find_element_by_selector` (automation.py lines 196-228, with identical copies
at lines 1616-1645 and 1982-2011): try the UiSelector strategy, then XPath,
then resource id; each attempt is a wait-and-locate whose failure is swallowed;
first success wins; a strategy whose value is the (falsy) empty string is not
queried at all.  The UI driver session is modelled as an environment of pure
lookup functions returning `none` on a swallowed locate failure, and the
function additionally returns the ghost trace of queries actually issued. -/

inductive Mode
  | clickable
  | presence
deriving DecidableEq

inductive StratKind
  | uiautomator
  | xpath
  | resourceId
deriving DecidableEq

structure Attempt where
  kind : StratKind
  value : String
  mode : Mode
deriving DecidableEq

structure DriverEnv (α : Type) where
  lookupUi : String → Mode → Option α
  lookupXpath : String → Mode → Option α
  lookupId : String → Mode → Option α

/-- One strategy block of `find_element_by_selector`: an empty value is
skipped with no query; otherwise one query is issued and recorded. -/
def tryStrategy {α : Type} (lookup : String → Mode → Option α) (kind : StratKind)
    (value : String) (mode : Mode) : Option α × List Attempt :=
  if value = "" then (none, [])
  else (lookup value mode, [⟨kind, value, mode⟩])

/-- `find_element_by_selector` with its ghost query trace.  On exhaustion the
source raises the fixed message
`Element not found with UiSelector, XPath, or resource_id`. -/
def find_element_by_selector_run {α : Type} (env : DriverEnv α)
    (uiselector xpath resource_id : String) (by_type : Mode) :
    Except String α × List Attempt :=
  match tryStrategy env.lookupUi .uiautomator uiselector by_type with
  | (some e, t1) => (.ok e, t1)
  | (none, t1) =>
    match tryStrategy env.lookupXpath .xpath xpath by_type with
    | (some e, t2) => (.ok e, t1 ++ t2)
    | (none, t2) =>
      match tryStrategy env.lookupId .resourceId resource_id by_type with
      | (some e, t3) => (.ok e, t1 ++ t2 ++ t3)
      | (none, t3) =>
        (.error "Element not found with UiSelector, XPath, or resource_id",
         t1 ++ t2 ++ t3)

def find_element_by_selector {α : Type} (env : DriverEnv α)
    (uiselector xpath resource_id : String) (by_type : Mode) : Except String α :=
  (find_element_by_selector_run env uiselector xpath resource_id by_type).1

/-! ## Batch add to cart

`add_items_to_cart_structured` (automation.py lines 340-397): loop over the
structured items; an empty item name yields a per-item failure entry; otherwise
search, then add the first result; each item gets its own result entry and the
batch `success` is `all` of the per-item `success` flags.  The per-item search
and add calls are modelled by a pure environment. -/

structure ItemData where
  item : String
  quantity : Nat
deriving DecidableEq

structure ItemResult where
  item : String
  quantity : Option Nat
  success : Bool
  message : String
deriving DecidableEq

structure BatchResult where
  success : Bool
  results : List ItemResult
deriving DecidableEq

structure CartEnv where
  searchOk : String → Bool
  addOk : String → Nat → Bool
  addMsg : String → Nat → String

/-- The body of the per-item loop of `add_items_to_cart_structured`. -/
def addItemStructured (env : CartEnv) (it : ItemData) : ItemResult :=
  if it.item = "" then
    ⟨it.item, none, false, "Item name is required"⟩
  else if env.searchOk it.item then
    ⟨it.item, some it.quantity, env.addOk it.item it.quantity,
     env.addMsg it.item it.quantity⟩
  else
    ⟨it.item, some it.quantity, false, "Failed to search for " ++ it.item⟩

def add_items_to_cart_structured (env : CartEnv) (items : List ItemData) :
    BatchResult :=
  let results := items.map (addItemStructured env)
  ⟨results.all (fun r => r.success), results⟩

/-! ## Scroll into view

The scroll-into-view loop of `find_and_click_element` (automation.py lines
546-620): margin 50; break with no gesture as soon as the element rectangle
lies inside `[margin, screenHeight - margin]`; otherwise swipe once per
iteration (direction depending on which edge is out of bounds) and re-resolve,
at most 5 times.  The count of swipe gestures is the observable modelled here;
`rect k` is the rectangle of the element as re-resolved after `k` swipes. -/

structure Rect where
  y : Int
  height : Int
deriving DecidableEq

def scrollSwipesGo (screenH : Int) (rect : Nat → Rect) : Nat → Nat → Nat
  | k, 0 => k
  | k, fuel + 1 =>
    let r := rect k
    if 50 ≤ r.y ∧ r.y + r.height ≤ screenH - 50 then k
    else scrollSwipesGo screenH rect (k + 1) fuel

def scroll_into_view_swipes (screenH : Int) (rect : Nat → Rect) : Nat :=
  scrollSwipesGo screenH rect 0 5

/-! ## Delivery date selection, preference `tomorrow`

The `tomorrow` branch of `_select_delivery_date` (automation.py lines
1688-1719): inside a scroll loop of at most 5 attempts, when the currently
rendered date list has more than one entry, take the entry at index 1
positionally; it is selected unless its content description contains `full`
case-insensitively; otherwise the list is scrolled and re-fetched.  `env k` is
the rendered slot list after `k` horizontal scrolls. -/

structure DateSlot where
  content_desc : String
deriving DecidableEq

def selectTomorrowOnce (slots : List DateSlot) : Option DateSlot :=
  if slots.length > 1 then
    match slots[1]? with
    | some vg =>
      if containsSub "full".data (pyLower vg.content_desc.data) then none
      else some vg
    | none => none
  else none

def selectTomorrowGo (env : Nat → List DateSlot) : Nat → Nat → Option DateSlot
  | _, 0 => none
  | k, fuel + 1 =>
    match selectTomorrowOnce (env k) with
    | some vg => some vg
    | none => selectTomorrowGo env (k + 1) fuel

def select_delivery_date_tomorrow (env : Nat → List DateSlot) : Option DateSlot :=
  selectTomorrowGo env 0 5

/-! ## Delivery time selection, specific clock time

The `is_specific_time` branch of `_select_delivery_time` (automation.py lines
2093-2158 with the fallbacks at lines 2224-2227 and 2246-2249).  A slot is
skipped when its time text is empty or its tile text / content description
contains `full` or `unavailable`; the slot range is extracted with
`re.search` over `(\d+)\s*(am|pm)\s*-\s*(\d+)\s*(am|pm)` from the lowercased
time text; a slot is clicked immediately when the target is strictly inside
the range and closer to the midpoint of the range than to either endpoint
(the source compares the float midpoint distance, which is exact dyadic
arithmetic on these small values, so the comparisons are scaled by 2 into
integers here); the first strictly-inside slot failing the midpoint test is
remembered and used as the fallback when the scan selects nothing, which ends
the search immediately after the first pass (lines 2224-2227). -/

structure TimeSlot where
  time_text : String
  full_text : String
  content_desc : String
deriving DecidableEq

def slotSkipped (s : TimeSlot) : Bool :=
  s.time_text.data.isEmpty
    || containsSub "full".data (pyLower (pyStrip s.full_text.data))
    || containsSub "unavailable".data (pyLower (pyStrip s.full_text.data))
    || containsSub "full".data (pyLower s.content_desc.data)

/-- The `\s*-\s*(\d+)\s*(am|pm)` tail of the range pattern, applied after the
first hour-period pair was read and its trailing whitespace dropped. -/
def matchRangeTail (h1 : Nat) (p1 : Bool) : List Char → Option (Nat × Bool × Nat × Bool)
  | '-' :: r3 =>
    let r4 := r3.dropWhile isPySpace
    let ds2 := r4.takeWhile Char.isDigit
    let r5 := (r4.dropWhile Char.isDigit).dropWhile isPySpace
    if ds2.isEmpty then none
    else
      match r5 with
      | 'a' :: 'm' :: _ => some (h1, p1, digitsToNat ds2, false)
      | 'p' :: 'm' :: _ => some (h1, p1, digitsToNat ds2, true)
      | _ => none
  | _ => none

/-- A match of `(\d+)\s*(am|pm)\s*-\s*(\d+)\s*(am|pm)` anchored at the head:
greedy digit/space runs followed by non-overlapping literals, hence a
deterministic maximal-munch scan. -/
def matchRangeAt (cs : List Char) : Option (Nat × Bool × Nat × Bool) :=
  let ds1 := cs.takeWhile Char.isDigit
  let r1 := (cs.dropWhile Char.isDigit).dropWhile isPySpace
  if ds1.isEmpty then none
  else
    match r1 with
    | 'a' :: 'm' :: r2 => matchRangeTail (digitsToNat ds1) false (r2.dropWhile isPySpace)
    | 'p' :: 'm' :: r2 => matchRangeTail (digitsToNat ds1) true (r2.dropWhile isPySpace)
    | _ => none

/-- `re.search` of the range pattern: the match at the leftmost starting
position where one exists. -/
def searchRange : List Char → Option (Nat × Bool × Nat × Bool)
  | [] => none
  | c :: rest =>
    match matchRangeAt (c :: rest) with
    | some r => some r
    | none => searchRange rest

/-- The f-string `f"{hour}{period}"` the source rebuilds before re-parsing
with `_parse_time_to_minutes`. -/
def fmtHourPeriod (h : Nat) (pm : Bool) : String :=
  Nat.repr h ++ (if pm then "pm" else "am")

/-- Start and end minutes of a slot, exactly as the source computes them:
`re.search` on the lowercased time text, then `_parse_time_to_minutes` on the
reformatted hour-period strings; `none` when any of the steps fails. -/
def slotRangeMinutes (s : TimeSlot) : Option (Nat × Nat) :=
  match searchRange (pyLower s.time_text.data) with
  | some (h1, p1, h2, p2) =>
    match parse_time_to_minutes (fmtHourPeriod h1 p1),
          parse_time_to_minutes (fmtHourPeriod h2 p2) with
    | some a, some b => some (a, b)
    | _, _ => none
  | none => none

/-- `distance_to_mid < distance_to_start and distance_to_mid < distance_to_end`
with the float midpoint `(a+b)/2`; both sides scaled by 2 into exact
integers. -/
def midCloser (t a b : Nat) : Bool :=
  decide ((2 * (t : Int) - ((a : Int) + (b : Int))).natAbs
      < 2 * ((t : Int) - (a : Int)).natAbs)
    && decide ((2 * (t : Int) - ((a : Int) + (b : Int))).natAbs
      < 2 * ((t : Int) - (b : Int)).natAbs)

/-- The scan over the slot list for a specific target time, carrying the
`best_match` fallback: an eligible slot strictly containing the target is
clicked at once when the target is closer to the range midpoint than to both
endpoints, and otherwise remembered as `best_match` if it is the first such;
when the scan ends without a click the remembered slot, if any, is used. -/
def selectSpecificGo (target : Nat) (best : Option TimeSlot) :
    List TimeSlot → Option TimeSlot
  | [] => best
  | s :: rest =>
    if slotSkipped s then selectSpecificGo target best rest
    else
      match slotRangeMinutes s with
      | none => selectSpecificGo target best rest
      | some (a, b) =>
        if a < target ∧ target < b then
          if midCloser target a b then some s
          else selectSpecificGo target (if best.isNone then some s else best) rest
        else selectSpecificGo target best rest

def select_delivery_time_specific (pref : String) (slots : List TimeSlot) :
    Option TimeSlot :=
  match parse_time_to_minutes pref with
  | none => none
  | some target => selectSpecificGo target none slots

/-- An eligible slot whose parsed range strictly contains the target. -/
def slotStrict (t : Nat) (s : TimeSlot) : Bool :=
  !slotSkipped s
    && (match slotRangeMinutes s with
        | some (a, b) => decide (a < t) && decide (t < b)
        | none => false)

/-- An eligible strictly-containing slot passing the midpoint test. -/
def slotMid (t : Nat) (s : TimeSlot) : Bool :=
  slotStrict t s
    && (match slotRangeMinutes s with
        | some (a, b) => midCloser t a b
        | none => false)

/-! ## Reorder loop budget

`reorder_last_order` (automation.py lines 797-1183): a `while attempt < 20`
loop over the purchase-history card list.  Every iteration either returns a
result (match found, or an unrecoverable page error) or increments `attempt`
at least once (skipped still-arriving cards, name mismatches, card errors and
empty scrolls each add one); exhausting the budget returns a failure naming
the configured customer and the budget of 20.  One loop iteration is modelled
by an environment mapping the current attempt count to its outcome;
`checked extra` stands for an iteration that consumed `1 + extra` attempts
without a match. -/

structure AutomationResult where
  success : Bool
  message : String
deriving DecidableEq

inductive ReorderStep
  | found (name : String)
  | abort (msg : String)
  | checked (extra : Nat)

/-- A single-quote character, written by code point to keep source quoting
uniform. -/
def sq : String := String.singleton (Char.ofNat 39)

/-- The f-string
`Could not find matching order for customer {name} after checking 20 orders`
with the name in single quotes (automation.py line 1180, with
`max_attempts = 20`). -/
def reorderFailureMsg (customer : String) : String :=
  "Could not find matching order for customer " ++ sq ++ customer ++ sq
    ++ " after checking 20 orders"

def reorderGo (customer : String) (step : Nat → ReorderStep) :
    Nat → Nat → AutomationResult
  | _, 0 => ⟨false, reorderFailureMsg customer⟩
  | attempt, fuel + 1 =>
    if attempt < 20 then
      match step attempt with
      | .found name => ⟨true, "Successfully reordered order for " ++ name⟩
      | .abort msg => ⟨false, msg⟩
      | .checked extra => reorderGo customer step (attempt + 1 + extra) fuel
    else ⟨false, reorderFailureMsg customer⟩

/-- The loop starts at `attempt = 0`; 20 units of fuel suffice because each
non-returning iteration increments `attempt` by at least one. -/
def reorder_last_order (customer : String) (step : Nat → ReorderStep) :
    AutomationResult :=
  reorderGo customer step 0 20

/-! ## Derived notions used in theorem statements -/

/-- The characters of the period suffix of a clock token. -/
def perChars (pm : Bool) : List Char := if pm then ['p', 'm'] else ['a', 'm']

/-- The ten decimal digit characters. -/
def digitChars : List Char := ['0', '1', '2', '3', '4', '5', '6', '7', '8', '9']

/-- A driver session in which every locate query times out. -/
def allFailEnv : DriverEnv Nat :=
  ⟨fun _ _ => none, fun _ _ => none, fun _ _ => none⟩

/-- The 12-hour to minutes-since-midnight conversion in closed form: the am
period maps hour 12 to 0, the pm period adds 12 to every hour except 12. -/
def minutesOf (h : Nat) (pm : Bool) : Nat :=
  if pm then (if h = 12 then h else h + 12) * 60 else (if h = 12 then 0 else h) * 60

/-! ## Shared lemmas about the string helpers -/

theorem isPrefixL_self_append (pat r : List Char) : isPrefixL pat (pat ++ r) = true := by
  induction pat with
  | nil => rfl
  | cons p ps ih => simp [isPrefixL, ih]

theorem containsSub_cons_of {pat : List Char} (c : Char) {cs : List Char}
    (h : containsSub pat cs = true) : containsSub pat (c :: cs) = true := by
  simp [containsSub, h]

theorem containsSub_append_self (pat l r : List Char) :
    containsSub pat (l ++ (pat ++ r)) = true := by
  induction l with
  | nil =>
    simp only [List.nil_append]
    cases pat with
    | nil =>
      cases r with
      | nil => rfl
      | cons a r2 => simp [containsSub, isPrefixL]
    | cons p ps =>
      have hp := isPrefixL_self_append (p :: ps) r
      simp only [containsSub]
      rw [List.cons_append] at hp
      simp [hp]
  | cons x l2 ih => exact containsSub_cons_of x ih

theorem containsSub_single_false {x : Char} :
    ∀ {cs : List Char}, (∀ c ∈ cs, c ≠ x) → containsSub [x] cs = false := by
  intro cs
  induction cs with
  | nil => intro _; rfl
  | cons a l ih =>
    intro h
    have ha : ¬(x = a) := fun e => h a (by simp) e.symm
    simp [containsSub, isPrefixL, ha, ih fun c hc => h c (by simp [hc])]

theorem containsSub_tosp_false :
    ∀ {cs : List Char}, (∀ c ∈ cs, c ≠ 't') →
      containsSub [' ', 't', 'o', ' '] cs = false := by
  intro cs
  induction cs with
  | nil => intro _; rfl
  | cons a l ih =>
    intro h
    have hpre : isPrefixL [' ', 't', 'o', ' '] (a :: l) = false := by
      cases l with
      | nil => simp [isPrefixL]
      | cons b l2 =>
        have hb : ¬('t' = b) := fun e => h b (by simp) e.symm
        simp [isPrefixL, hb]
    simp [containsSub, hpre, ih fun c hc => h c (by simp [hc])]

theorem digit_facts : ∀ c ∈ digitChars, Char.isDigit c = true ∧ c.toLower = c ∧
    isPySpace c = false ∧ c ≠ '-' ∧ c ≠ 't' := by decide

theorem mem_perChars {c : Char} {pm : Bool} (h : c ∈ perChars pm) :
    c = 'a' ∨ c = 'm' ∨ c = 'p' := by
  cases pm <;> simp [perChars] at h <;> rcases h with h | h <;> simp [h]

theorem per_facts : ∀ c : Char, c = 'a' ∨ c = 'm' ∨ c = 'p' →
    c.toLower = c ∧ Char.isDigit c = false ∧ isPySpace c = false ∧
      c ≠ '-' ∧ c ≠ 't' := by
  intro c h
  rcases h with h | h | h <;> subst h <;> decide

theorem pyLower_eq_self : ∀ {cs : List Char}, (∀ c ∈ cs, c.toLower = c) →
    pyLower cs = cs := by
  intro cs
  induction cs with
  | nil => intro _; rfl
  | cons a l ih =>
    intro h
    have h1 := h a (List.mem_cons_self a l)
    have h2 := ih fun c hc => h c (List.mem_cons_of_mem a hc)
    simp only [pyLower, List.map_cons] at h2 ⊢
    rw [h1, h2]

theorem dropWhile_cons_ne {p : Char → Bool} {c : Char} {cs : List Char}
    (h : p c = false) : (c :: cs).dropWhile p = c :: cs :=
  List.dropWhile_cons_of_neg (by simp [h])

theorem pyStrip_eq_self : ∀ {cs : List Char},
    (∀ c, cs.head? = some c → isPySpace c = false) →
    (∀ c, cs.getLast? = some c → isPySpace c = false) → pyStrip cs = cs := by
  intro cs h1 h2
  cases cs with
  | nil => rfl
  | cons a l =>
    have ha : isPySpace a = false := h1 a rfl
    rw [pyStrip, dropWhile_cons_ne ha]
    rcases hrev : (a :: l).reverse with _ | ⟨b, t⟩
    · exact absurd hrev (by simp)
    · have hb : isPySpace b = false := by
        apply h2
        rw [List.getLast?_eq_head?_reverse, hrev]
        rfl
      rw [dropWhile_cons_ne hb, ← hrev, List.reverse_reverse]

theorem takeWhile_dropWhile_append_all {p : Char → Bool} {r : List Char}
    (hr : ∀ c, r.head? = some c → p c = false) :
    ∀ l : List Char, (∀ c ∈ l, p c = true) →
      (l ++ r).takeWhile p = l ∧ (l ++ r).dropWhile p = r := by
  intro l
  induction l with
  | nil =>
    intro _
    simp only [List.nil_append]
    cases r with
    | nil => exact ⟨rfl, rfl⟩
    | cons b t =>
      have hb : p b = false := hr b rfl
      exact ⟨List.takeWhile_cons_of_neg (by simp [hb]),
        List.dropWhile_cons_of_neg (by simp [hb])⟩
  | cons a l2 ih =>
    intro hl
    have ha : p a = true := hl a (by simp)
    obtain ⟨iht, ihd⟩ := ih fun c hc => hl c (by simp [hc])
    refine ⟨?_, ?_⟩
    · rw [List.cons_append, List.takeWhile_cons_of_pos ha, iht]
    · rw [List.cons_append, List.dropWhile_cons_of_pos ha, ihd]

theorem dropWhile_append_all_left {p : Char → Bool} {r : List Char} :
    ∀ l : List Char, (∀ c ∈ l, p c = true) →
      (l ++ r).dropWhile p = r.dropWhile p := by
  intro l
  induction l with
  | nil => intro _; rfl
  | cons a l2 ih =>
    intro hl
    rw [List.cons_append, List.dropWhile_cons_of_pos (hl a (by simp)),
      ih fun c hc => hl c (by simp [hc])]

theorem matchTimePrefix_general (ds sp : List Char) (pm : Bool) (rest : List Char)
    (hne : ds ≠ []) (hd : ∀ c ∈ ds, c ∈ digitChars) (hsp : ∀ c ∈ sp, c = ' ') :
    matchTimePrefix (ds ++ (sp ++ (perChars pm ++ rest)))
      = some (digitsToNat ds, pm) := by
  have hd' : ∀ c ∈ ds, Char.isDigit c = true := fun c hc => (digit_facts c (hd c hc)).1
  have hbound : ∀ c, (sp ++ (perChars pm ++ rest)).head? = some c →
      Char.isDigit c = false := by
    intro c hc
    cases sp with
    | nil =>
      cases pm <;> simp [perChars] at hc <;> rw [← hc] <;> decide
    | cons s sp2 =>
      have hs : s = ' ' := hsp s (by simp)
      simp only [List.cons_append, List.head?_cons, Option.some.injEq] at hc
      rw [← hc, hs]
      decide
  obtain ⟨ht, hdrop⟩ := takeWhile_dropWhile_append_all hbound ds hd'
  have hsp' : ∀ c ∈ sp, isPySpace c = true := by
    intro c hc
    rw [hsp c hc]
    decide
  have hne' : ds.isEmpty = false := by
    cases ds with
    | nil => exact absurd rfl hne
    | cons _ _ => rfl
  simp only [matchTimePrefix, ht, hdrop, dropWhile_append_all_left _ hsp', hne']
  cases pm <;> simp [perChars, dropWhile_cons_ne (by decide : isPySpace 'a' = false),
    dropWhile_cons_ne (by decide : isPySpace 'p' = false)]

theorem parseTimeCore_general (ds sp : List Char) (pm : Bool) (rest : List Char)
    (hne : ds ≠ []) (hd : ∀ c ∈ ds, c ∈ digitChars) (hsp : ∀ c ∈ sp, c = ' ') :
    parseTimeCore (ds ++ (sp ++ (perChars pm ++ rest)))
      = some (minutesOf (digitsToNat ds) pm) := by
  simp only [parseTimeCore, matchTimePrefix_general ds sp pm rest hne hd hsp]
  cases pm <;> simp [minutesOf]

theorem token_char_facts (ds sp : List Char) (pm : Bool)
    (hd : ∀ c ∈ ds, c ∈ digitChars) (hsp : ∀ c ∈ sp, c = ' ') :
    ∀ c ∈ ds ++ (sp ++ perChars pm),
      c.toLower = c ∧ c ≠ 't' ∧ c ≠ '-' := by
  intro c hc
  rcases List.mem_append.mp hc with h | h
  · obtain ⟨_, h2, _, h4, h5⟩ := digit_facts c (hd c h)
    exact ⟨h2, h5, h4⟩
  · rcases List.mem_append.mp h with h | h
    · rw [hsp c h]
      exact ⟨by decide, by decide, by decide⟩
    · obtain ⟨h1, _, _, h4, h5⟩ := per_facts c (mem_perChars h)
      exact ⟨h1, h5, h4⟩

theorem token_strip_facts (ds sp : List Char) (pm : Bool)
    (hne : ds ≠ []) (hd : ∀ c ∈ ds, c ∈ digitChars) :
    pyStrip (ds ++ (sp ++ perChars pm)) = ds ++ (sp ++ perChars pm) := by
  apply pyStrip_eq_self
  · intro c hc
    cases ds with
    | nil => exact absurd rfl hne
    | cons d ds2 =>
      simp only [List.cons_append, List.head?_cons, Option.some.injEq] at hc
      subst hc
      exact (digit_facts d (hd d (by simp))).2.2.1
  · intro c hc
    rw [List.getLast?_append, List.getLast?_append] at hc
    have hper : (perChars pm).getLast? = some 'm' := by cases pm <;> rfl
    rw [hper] at hc
    simp only [Option.or_some, Option.some.injEq] at hc
    rw [← hc]
    decide

theorem parse_time_to_minutes_clean {ds sp : List Char} {pm : Bool}
    (hne : ds ≠ []) (hd : ∀ c ∈ ds, c ∈ digitChars) (hsp : ∀ c ∈ sp, c = ' ') :
    parse_time_to_minutes (String.mk (ds ++ (sp ++ perChars pm)))
      = some (minutesOf (digitsToNat ds) pm) := by
  have hch := token_char_facts ds sp pm hd hsp
  have hlow : pyLower (ds ++ (sp ++ perChars pm)) = ds ++ (sp ++ perChars pm) :=
    pyLower_eq_self fun c hc => (hch c hc).1
  have hdash : containsSub ['-'] (ds ++ (sp ++ perChars pm)) = false :=
    containsSub_single_false fun c hc => (hch c hc).2.2
  have hto : containsSub [' ', 't', 'o', ' '] (ds ++ (sp ++ perChars pm)) = false :=
    containsSub_tosp_false fun c hc => (hch c hc).2.1
  have hstrip := token_strip_facts ds sp pm hne hd
  simp only [parse_time_to_minutes, hlow, hstrip, hdash, hto, Bool.or_self,
    Bool.false_eq_true, if_false]
  have := parseTimeCore_general ds sp pm [] hne hd hsp
  simpa using this

/-! ## Claims C2, C3, C8 -/

/-- C3: `_parse_time_to_minutes` maps a 12-hour clock token `<hour><spaces>am|pm`
to minutes since midnight with 12am mapped to 0 and 12pm to 720; in particular
`8am` parses to 480, `12am` to 0, `12pm` to 720 and `2pm` to 840. -/
theorem parse_time_twelve_hour_normalization :
    (∀ (ds sp : List Char) (pm : Bool), ds ≠ [] → (∀ c ∈ ds, c ∈ digitChars) →
      (∀ c ∈ sp, c = ' ') →
      parse_time_to_minutes (String.mk (ds ++ (sp ++ perChars pm)))
        = some (minutesOf (digitsToNat ds) pm)) ∧
    parse_time_to_minutes "8am" = some 480 ∧
    parse_time_to_minutes "12am" = some 0 ∧
    parse_time_to_minutes "12pm" = some 720 ∧
    parse_time_to_minutes "2pm" = some 840 :=
  ⟨fun _ _ _ hne hd hsp => parse_time_to_minutes_clean hne hd hsp,
   by decide, by decide, by decide, by decide⟩

/-- C3 witness: the general clause evaluated at the token `12pm`. -/
theorem parse_time_twelve_hour_normalization_witness :
    parse_time_to_minutes (String.mk (['1', '2'] ++ ([] ++ perChars true)))
      = some (minutesOf (digitsToNat ['1', '2']) true) :=
  parse_time_twelve_hour_normalization.1 ['1', '2'] [] true (by decide) (by decide)
    (by decide)

/-- C2: the source contradicts its own docstrings and comments here.  The
comment at lines 1957-1959 asserts that `8am` matches both `6am-8am` and
`8am-10am`, and the docstring of `_parse_time_range` gives `6am-8am` as a
canonical input, but the split pattern `[- ]to[ ]` never splits on a bare
dash, so every dash-separated range fails to parse and the membership test
returns `False`; with the word `to` as separator the documented inclusive
behavior holds. -/
theorem time_falls_in_range_dash_bug :
    time_falls_in_range "8am" "6am-8am" = false ∧
    time_falls_in_range "8am" "8am-10am" = false ∧
    parse_time_range "6am-8am" = none ∧
    time_falls_in_range "8am" "6am to 8am" = true ∧
    time_falls_in_range "8am" "8am to 10am" = true ∧
    time_falls_in_range "5am" "6am to 8am" = false :=
  ⟨by decide, by decide, by decide, by decide, by decide, by decide⟩

/-- C8: when the element rectangle already lies fully inside the safe band
`[margin, screenHeight - margin]` with margin 50, the scroll-into-view loop of
`find_and_click_element` performs zero swipe gestures. -/
theorem scroll_no_swipes_when_visible (screenH : Int) (rect : Nat → Rect)
    (htop : 50 ≤ (rect 0).y)
    (hbot : (rect 0).y + (rect 0).height ≤ screenH - 50) :
    scroll_into_view_swipes screenH rect = 0 := by
  simp only [scroll_into_view_swipes, scrollSwipesGo]
  rw [if_pos ⟨htop, hbot⟩]

/-- C8 witness: a 200-pixel-tall element at y = 100 on a 1000-pixel screen is
inside the safe band and needs no swipe. -/
theorem scroll_no_swipes_when_visible_witness :
    scroll_into_view_swipes 1000 (fun _ => ⟨100, 200⟩) = 0 :=
  scroll_no_swipes_when_visible 1000 (fun _ => ⟨100, 200⟩) (by decide) (by decide)

/-! ## Claims C1 and C6 -/

theorem find_run_trace_mem {α : Type} (env : DriverEnv α) (ui xp rid : String)
    (mode : Mode) :
    ∀ a ∈ (find_element_by_selector_run env ui xp rid mode).2,
      (a = ⟨.uiautomator, ui, mode⟩ ∧ ui ≠ "") ∨
      (a = ⟨.xpath, xp, mode⟩ ∧ xp ≠ "") ∨
      (a = ⟨.resourceId, rid, mode⟩ ∧ rid ≠ "") := by
  intro a ha
  rcases hu : env.lookupUi ui mode with _ | eu <;>
    rcases hx : env.lookupXpath xp mode with _ | ex <;>
      rcases hr : env.lookupId rid mode with _ | er <;>
        by_cases hui : ui = "" <;> by_cases hxp : xp = "" <;> by_cases hrid : rid = "" <;>
          simp [find_element_by_selector_run, tryStrategy, hu, hx, hr, hui, hxp,
            hrid] at ha <;>
          simp_all <;>
          tauto

/-- C1: with the ordered strategies UiSelector, XPath, resource id, if the
UiSelector lookup fails and the XPath lookup succeeds, resolution returns the
XPath element as the overall result; and a strategy with an empty value is
skipped without any lookup being attempted (the ghost trace of issued queries
never contains an attempt of an empty-valued kind). -/
theorem find_element_fallback_and_empty_skip {α : Type} (env : DriverEnv α)
    (ui xp rid : String) (mode : Mode) (e : α)
    (h1 : env.lookupUi ui mode = none) (h2 : env.lookupXpath xp mode = some e)
    (hxp : xp ≠ "") :
    find_element_by_selector env ui xp rid mode = .ok e ∧
    (∀ a ∈ (find_element_by_selector_run env "" xp rid mode).2,
      a.kind ≠ .uiautomator) ∧
    (∀ a ∈ (find_element_by_selector_run env ui "" rid mode).2, a.kind ≠ .xpath) ∧
    (∀ a ∈ (find_element_by_selector_run env ui xp "" mode).2,
      a.kind ≠ .resourceId) := by
  refine ⟨?_, ?_, ?_, ?_⟩
  · by_cases hui : ui = "" <;>
      simp [find_element_by_selector, find_element_by_selector_run, tryStrategy,
        hui, hxp, h1, h2]
  · intro a ha
    rcases find_run_trace_mem env "" xp rid mode a ha with ⟨_, hc⟩ | ⟨he, _⟩ | ⟨he, _⟩
    · exact absurd rfl hc
    · rw [he]; simp
    · rw [he]; simp
  · intro a ha
    rcases find_run_trace_mem env ui "" rid mode a ha with ⟨he, _⟩ | ⟨_, hc⟩ | ⟨he, _⟩
    · rw [he]; simp
    · exact absurd rfl hc
    · rw [he]; simp
  · intro a ha
    rcases find_run_trace_mem env ui xp "" mode a ha with ⟨he, _⟩ | ⟨he, _⟩ | ⟨_, hc⟩
    · rw [he]; simp
    · rw [he]; simp
    · exact absurd rfl hc

/-- C1 witness: a session where the UiSelector query times out and the XPath
query locates element 7. -/
theorem find_element_fallback_and_empty_skip_witness :
    find_element_by_selector
        (⟨fun _ _ => none, fun v _ => if v = "xp1" then some 7 else none,
          fun _ _ => none⟩ : DriverEnv Nat) "ui1" "xp1" "rid1" .clickable
      = .ok 7 ∧
    (∀ a ∈ (find_element_by_selector_run
        (⟨fun _ _ => none, fun v _ => if v = "xp1" then some 7 else none,
          fun _ _ => none⟩ : DriverEnv Nat) "" "xp1" "rid1" .clickable).2,
      a.kind ≠ .uiautomator) ∧
    (∀ a ∈ (find_element_by_selector_run
        (⟨fun _ _ => none, fun v _ => if v = "xp1" then some 7 else none,
          fun _ _ => none⟩ : DriverEnv Nat) "ui1" "" "rid1" .clickable).2,
      a.kind ≠ .xpath) ∧
    (∀ a ∈ (find_element_by_selector_run
        (⟨fun _ _ => none, fun v _ => if v = "xp1" then some 7 else none,
          fun _ _ => none⟩ : DriverEnv Nat) "ui1" "xp1" "" .clickable).2,
      a.kind ≠ .resourceId) :=
  find_element_fallback_and_empty_skip
    (⟨fun _ _ => none, fun v _ => if v = "xp1" then some 7 else none,
      fun _ _ => none⟩ : DriverEnv Nat) "ui1" "xp1" "rid1" .clickable 7 rfl rfl
    (by decide)

/-- C6 counterexample: when every strategy fails, the raised error is the one
fixed message; it is identical for entirely different strategy sets and
contains neither the tried strategy values nor any per-strategy failure
reason, refuting the claim that the aggregate error names each strategy tried
and its individual failure reason. -/
theorem resolver_error_generic_counterexample :
    find_element_by_selector allFailEnv "stratA" "stratB" "stratC" .clickable
      = .error "Element not found with UiSelector, XPath, or resource_id" ∧
    find_element_by_selector allFailEnv "otherX" "otherY" "otherZ" .presence
      = find_element_by_selector allFailEnv "stratA" "stratB" "stratC" .clickable ∧
    containsSub "stratA".data
      "Element not found with UiSelector, XPath, or resource_id".data = false ∧
    containsSub "stratB".data
      "Element not found with UiSelector, XPath, or resource_id".data = false ∧
    containsSub "stratC".data
      "Element not found with UiSelector, XPath, or resource_id".data = false :=
  ⟨rfl, rfl, by decide, by decide, by decide⟩

/-- C6 amended: when every configured lookup strategy is exhausted without
success, resolution fails with the fixed aggregate message naming the three
strategy kinds, `Element not found with UiSelector, XPath, or resource_id`,
independent of the individual strategies and their failure reasons. -/
theorem resolver_exhaustion_generic_error {α : Type} (env : DriverEnv α)
    (ui xp rid : String) (mode : Mode)
    (h1 : env.lookupUi ui mode = none) (h2 : env.lookupXpath xp mode = none)
    (h3 : env.lookupId rid mode = none) :
    find_element_by_selector env ui xp rid mode
      = .error "Element not found with UiSelector, XPath, or resource_id" := by
  by_cases hui : ui = "" <;> by_cases hxp : xp = "" <;> by_cases hrid : rid = "" <;>
    simp [find_element_by_selector, find_element_by_selector_run, tryStrategy,
      hui, hxp, hrid, h1, h2, h3]

/-- C6 witness: the exhaustion theorem applied to an all-failing session. -/
theorem resolver_exhaustion_generic_error_witness :
    find_element_by_selector allFailEnv "a" "b" "c" .clickable
      = .error "Element not found with UiSelector, XPath, or resource_id" :=
  resolver_exhaustion_generic_error allFailEnv "a" "b" "c" .clickable rfl rfl rfl

/-! ## Claim C5 -/

/-- C5: the batch add keeps one result entry per input item in order, each
entry determined by that item alone (so one failing item never aborts or
perturbs the others), the batch success flag is the conjunction of the
per-item success flags, and on the concrete milk-and-eggs batch where the
milk search fails, the overall flag is false while the eggs entry succeeds. -/
theorem add_items_batch_isolation (env : CartEnv) (items : List ItemData) :
    (add_items_to_cart_structured env items).results.length = items.length ∧
    (∀ i : Nat, (add_items_to_cart_structured env items).results[i]?
      = (items[i]?).map (addItemStructured env)) ∧
    (add_items_to_cart_structured env items).success
      = (add_items_to_cart_structured env items).results.all (fun r => r.success) ∧
    add_items_to_cart_structured
        ⟨fun s => s == "eggs", fun _ _ => true, fun _ _ => "Added item to cart"⟩
        [⟨"milk", 2⟩, ⟨"eggs", 1⟩]
      = ⟨false, [⟨"milk", some 2, false, "Failed to search for milk"⟩,
                 ⟨"eggs", some 1, true, "Added item to cart"⟩]⟩ :=
  ⟨by simp [add_items_to_cart_structured],
   fun i => by simp [add_items_to_cart_structured],
   rfl, by decide⟩

/-! ## Claim C4 -/

/-- C4 counterexample: a two-slot date list whose second slot is marked
`Full`; the `tomorrow` selection does not return the slot at position 1 (it
returns nothing at all), refuting selection regardless of label content. -/
theorem select_tomorrow_full_counterexample :
    select_delivery_date_tomorrow
        (fun _ => [⟨"Today, Dec 10 Radio Button"⟩,
                   ⟨"Tomorrow, Dec 11, Full Radio Button"⟩])
      = none ∧
    2 ≤ [(⟨"Today, Dec 10 Radio Button"⟩ : DateSlot),
         ⟨"Tomorrow, Dec 11, Full Radio Button"⟩].length :=
  ⟨by decide, by decide⟩

/-- C4 amended: with preference `tomorrow` and at least two rendered date
slots, the slot at list position 1 is selected purely positionally, whatever
its label, provided the label does not contain `full` case-insensitively; a
`full`-labelled second slot is never selected. -/
theorem select_tomorrow_positional_unless_full (env : Nat → List DateSlot)
    (vg : DateSlot) (hlen : 1 < (env 0).length) (hvg : (env 0)[1]? = some vg)
    (hfull : containsSub "full".data (pyLower vg.content_desc.data) = false) :
    select_delivery_date_tomorrow env = some vg := by
  have h0 : selectTomorrowOnce (env 0) = some vg := by
    unfold selectTomorrowOnce
    rw [if_pos hlen, hvg]
    simp [hfull]
  show selectTomorrowGo env 0 5 = some vg
  unfold selectTomorrowGo
  rw [h0]

/-- C4 amended witness: a second slot with an ordinary date label is chosen
positionally. -/
theorem select_tomorrow_positional_unless_full_witness :
    select_delivery_date_tomorrow
        (fun _ => [⟨"Today, Dec 10 Radio Button"⟩, ⟨"Wed, Dec 11 Radio Button"⟩])
      = some ⟨"Wed, Dec 11 Radio Button"⟩ :=
  select_tomorrow_positional_unless_full
    (fun _ => [⟨"Today, Dec 10 Radio Button"⟩, ⟨"Wed, Dec 11 Radio Button"⟩])
    ⟨"Wed, Dec 11 Radio Button"⟩ (by decide) (by decide) (by decide)

/-! ## Claim C9 -/

theorem containsSub_append_right (pat : List Char) :
    ∀ l r : List Char, containsSub pat r = true → containsSub pat (l ++ r) = true := by
  intro l
  induction l with
  | nil => intro r h; exact h
  | cons c l2 ih => intro r h; exact containsSub_cons_of c (ih r h)

/-- C9: the reorder loop checks at most 20 attempts; once the attempt counter
reaches the budget the loop stops at once, and if every iteration merely
consumes attempts without a match, the flow returns a failure whose message
contains the configured customer name and the attempt budget 20. -/
theorem reorder_budget_exhaustion_failure (customer : String)
    (step : Nat → ReorderStep) (h : ∀ n, ∃ k, step n = .checked k) :
    reorder_last_order customer step = ⟨false, reorderFailureMsg customer⟩ ∧
    containsSub customer.data (reorderFailureMsg customer).data = true ∧
    containsSub "20".data (reorderFailureMsg customer).data = true ∧
    (∀ a : Nat, 20 ≤ a → ∀ fuel : Nat,
      reorderGo customer step a fuel = ⟨false, reorderFailureMsg customer⟩) := by
  have main : ∀ fuel attempt, reorderGo customer step attempt fuel
      = ⟨false, reorderFailureMsg customer⟩ := by
    intro fuel
    induction fuel with
    | zero => intro attempt; rfl
    | succ f ih =>
      intro attempt
      obtain ⟨k, hk⟩ := h attempt
      by_cases hlt : attempt < 20
      · simp [reorderGo, hlt, hk, ih]
      · simp [reorderGo, hlt]
  refine ⟨main 20 0, ?_, ?_, ?_⟩
  · have hsplit : (reorderFailureMsg customer).data
        = ("Could not find matching order for customer " ++ sq).data
          ++ (customer.data ++ (sq ++ " after checking 20 orders").data) := by
      simp [reorderFailureMsg, List.append_assoc]
    rw [hsplit]
    exact containsSub_append_self _ _ _
  · have hsplit : (reorderFailureMsg customer).data
        = ("Could not find matching order for customer " ++ sq ++ customer ++ sq
            ++ " after checking ").data ++ ("20 orders").data := by
      simp [reorderFailureMsg, List.append_assoc]
    rw [hsplit]
    exact containsSub_append_right _ _ _ (by decide)
  · intro a ha fuel
    cases fuel with
    | zero => rfl
    | succ f => simp [reorderGo, Nat.not_lt.mpr ha]

/-- C9 witness: a run in which every iteration checks one card without a
match exhausts the budget and reports the failure message. -/
theorem reorder_budget_exhaustion_failure_witness :
    reorder_last_order "Shivoham Bhatt" (fun _ => .checked 0)
      = ⟨false, reorderFailureMsg "Shivoham Bhatt"⟩ :=
  (reorder_budget_exhaustion_failure "Shivoham Bhatt" (fun _ => .checked 0)
    (fun _ => ⟨0, rfl⟩)).1

/-! ## Claim C7 -/

theorem selectSpecificGo_characterization (t : Nat) :
    ∀ (slots : List TimeSlot) (best : Option TimeSlot),
      selectSpecificGo t best slots
        = match slots.find? (slotMid t) with
          | some s => some s
          | none =>
            match best with
            | some b => some b
            | none => slots.find? (slotStrict t) := by
  intro slots
  induction slots with
  | nil => intro best; cases best <;> rfl
  | cons s rest ih =>
    intro best
    cases hskip : slotSkipped s with
    | true =>
      have hstr : slotStrict t s = false := by simp [slotStrict, hskip]
      have hmid : slotMid t s = false := by simp [slotMid, slotStrict, hskip]
      simp only [selectSpecificGo, hskip, if_true, List.find?_cons, hstr, hmid,
        cond_false]
      exact ih best
    | false =>
      rcases hrm : slotRangeMinutes s with _ | ⟨a, b⟩
      · have hstr : slotStrict t s = false := by simp [slotStrict, hskip, hrm]
        have hmid : slotMid t s = false := by simp [slotMid, slotStrict, hskip, hrm]
        simp only [selectSpecificGo, hskip, Bool.false_eq_true, if_false, hrm,
          List.find?_cons, hstr, hmid, cond_false]
        exact ih best
      · by_cases hab : a < t ∧ t < b
        · cases hm : midCloser t a b with
          | true =>
            have hmid : slotMid t s = true := by
              simp [slotMid, slotStrict, hskip, hrm, hab.1, hab.2, hm]
            simp only [selectSpecificGo, hskip, Bool.false_eq_true, if_false, hrm,
              if_pos hab, hm, if_true, List.find?_cons, hmid, cond_true]
          | false =>
            have hstr : slotStrict t s = true := by
              simp [slotStrict, hskip, hrm, hab.1, hab.2]
            have hmid : slotMid t s = false := by
              simp [slotMid, slotStrict, hskip, hrm, hab.1, hab.2, hm]
            simp only [selectSpecificGo, hskip, Bool.false_eq_true, if_false, hrm,
              if_pos hab, hm, List.find?_cons, hmid, hstr, cond_false, cond_true]
            cases best with
            | none =>
              show selectSpecificGo t (some s) rest = _
              rw [ih (some s)]
            | some b0 =>
              show selectSpecificGo t (some b0) rest = _
              rw [ih (some b0)]
        · have hstr : slotStrict t s = false := by
            rcases Decidable.not_and_iff_or_not.mp hab with hn | hn <;>
              simp [slotStrict, hskip, hrm, hn]
          have hmid : slotMid t s = false := by simp [slotMid, hstr]
          simp only [selectSpecificGo, hskip, Bool.false_eq_true, if_false, hrm,
            if_neg hab, List.find?_cons, hstr, hmid, cond_false]
          exact ih best

/-- C7 counterexample: with target `8am` (480 minutes) over the slots
`6am-12pm` then `7am-9am`, both strictly contain the target and `7am-9am` has
the strictly closer range midpoint (distance 0 against 60), yet the code
selects `6am-12pm`, the first slot whose target is merely closer to the
midpoint than to the ends; moreover a slot touching the target only at its
boundary (`8am-10am`) is never selected, so there is no fallback to the first
containing range. -/
theorem select_time_midpoint_counterexample :
    select_delivery_time_specific "8am"
        [⟨"6am-12pm", "", ""⟩, ⟨"7am-9am", "", ""⟩]
      = some ⟨"6am-12pm", "", ""⟩ ∧
    select_delivery_time_specific "8am"
        [⟨"6am-12pm", "", ""⟩, ⟨"7am-9am", "", ""⟩]
      ≠ some ⟨"7am-9am", "", ""⟩ ∧
    slotStrict 480 ⟨"7am-9am", "", ""⟩ = true ∧
    slotRangeMinutes ⟨"6am-12pm", "", ""⟩ = some (360, 720) ∧
    slotRangeMinutes ⟨"7am-9am", "", ""⟩ = some (420, 540) ∧
    (2 * (480 : Int) - (420 + 540)).natAbs
      < (2 * (480 : Int) - (360 + 720)).natAbs ∧
    select_delivery_time_specific "8am" [⟨"8am-10am", "", ""⟩] = none ∧
    time_falls_in_range "8am" "8am to 10am" = true :=
  ⟨by decide, by decide, by decide, by decide, by decide, by decide, by decide,
   by decide⟩

/-- C7 amended: for a specific clock time, the selection returns the first
listed slot whose range strictly contains the time with the time closer to
the range midpoint than to both endpoints; if no such slot exists it falls
back to the first slot whose range strictly contains the time; a slot
containing the time only at a boundary is never selected. -/
theorem select_time_first_midcloser_then_first_strict (pref : String) (t : Nat)
    (slots : List TimeSlot) (hp : parse_time_to_minutes pref = some t) :
    select_delivery_time_specific pref slots
      = match slots.find? (slotMid t) with
        | some s => some s
        | none => slots.find? (slotStrict t) := by
  simp only [select_delivery_time_specific, hp]
  rw [selectSpecificGo_characterization]

/-- C7 amended witness: the single slot `7am-9am` strictly contains `8am`
with the midpoint test passing, and is returned by both sides. -/
theorem select_time_first_midcloser_then_first_strict_witness :
    select_delivery_time_specific "8am" [⟨"7am-9am", "", ""⟩]
      = match [(⟨"7am-9am", "", ""⟩ : TimeSlot)].find? (slotMid 480) with
        | some s => some s
        | none => [(⟨"7am-9am", "", ""⟩ : TimeSlot)].find? (slotStrict 480) :=
  select_time_first_midcloser_then_first_strict "8am" 480 [⟨"7am-9am", "", ""⟩]
    (by decide)

/-! ## Claim C10: lemmas about the range split -/

theorem isSepAt_cons_false {c0 : Char} {cs : List Char} (h : cs[0]? ≠ some 't') :
    isSepAt (c0 :: cs) = false := by
  simp [isSepAt, h]

theorem reSplit_noT : ∀ (fuel : Nat) (acc cs : List Char),
    (∀ c ∈ cs, c ≠ 't') → reSplitDashToF fuel acc cs = [acc.reverse ++ cs] := by
  intro fuel
  induction fuel with
  | zero => intro acc cs _; rfl
  | succ f ih =>
    intro acc cs h
    cases cs with
    | nil => simp [reSplitDashToF]
    | cons c cs2 =>
      have hsep : isSepAt (c :: cs2) = false := by
        apply isSepAt_cons_false
        cases cs2 with
        | nil => simp
        | cons c2 cs3 =>
          simp only [List.getElem?_cons_zero, ne_eq, Option.some.injEq]
          exact h c2 (by simp)
      simp only [reSplitDashToF, hsep, Bool.false_eq_true, if_false]
      rw [ih (c :: acc) cs2 fun x hx => h x (by simp [hx])]
      simp

theorem reSplit_sep_prefix :
    ∀ l : List Char, (∀ c ∈ l, c ≠ 't') → ∀ (acc r : List Char) (f : Nat),
      reSplitDashToF (l.length + 1 + f) acc (l ++ ' ' :: 't' :: 'o' :: ' ' :: r)
        = (acc.reverse ++ l) :: reSplitDashToF f [] r := by
  intro l
  induction l with
  | nil =>
    intro _ acc r f
    have h1 : ([] : List Char).length + 1 + f = f + 1 := by simp; omega
    rw [h1]
    have hsep : isSepAt (' ' :: 't' :: 'o' :: ' ' :: r) = true := by simp [isSepAt]
    simp [reSplitDashToF, hsep]
  | cons x l2 ih =>
    intro hl acc r f
    have h1 : (x :: l2).length + 1 + f = (l2.length + 1 + f) + 1 := by
      simp [List.length_cons]
      omega
    rw [h1]
    have hsep : isSepAt (x :: (l2 ++ ' ' :: 't' :: 'o' :: ' ' :: r)) = false := by
      apply isSepAt_cons_false
      cases l2 with
      | nil => simp
      | cons y l3 =>
        simp only [List.cons_append, List.getElem?_cons_zero, ne_eq,
          Option.some.injEq]
        exact hl y (by simp)
    rw [List.cons_append]
    simp only [reSplitDashToF, hsep, Bool.false_eq_true, if_false]
    rw [ih (fun c hc => hl c (by simp [hc])) (x :: acc) r f]
    simp

theorem reSplit_head_prefix : ∀ (fuel : Nat) (acc cs : List Char),
    ∃ p, (reSplitDashToF fuel acc cs).headD [] = acc.reverse ++ p ∧ p <+: cs := by
  intro fuel
  induction fuel with
  | zero => intro acc cs; exact ⟨cs, rfl, List.prefix_refl cs⟩
  | succ f ih =>
    intro acc cs
    cases cs with
    | nil => exact ⟨[], by simp [reSplitDashToF], List.nil_prefix⟩
    | cons c cs2 =>
      by_cases hsep : isSepAt (c :: cs2) = true
      · exact ⟨[], by simp [reSplitDashToF, hsep], List.nil_prefix⟩
      · obtain ⟨p, hp, hpre⟩ := ih (c :: acc) cs2
        obtain ⟨tail, htail⟩ := hpre
        refine ⟨c :: p, ?_, ⟨tail, by simp [htail]⟩⟩
        simp only [reSplitDashToF, hsep, Bool.false_eq_true, if_false]
        rw [hp]
        simp

theorem pyStrip_head_not_space (cs : List Char) :
    ∀ c, (pyStrip cs).head? = some c → isPySpace c = false := by
  intro c hc
  have hpre : ((cs.dropWhile isPySpace).reverse.dropWhile isPySpace).reverse
      <+: cs.dropWhile isPySpace := by
    have hsuf : (cs.dropWhile isPySpace).reverse.dropWhile isPySpace
        <:+ (cs.dropWhile isPySpace).reverse := List.dropWhile_suffix isPySpace
    have := List.reverse_prefix.mpr hsuf
    rwa [List.reverse_reverse] at this
  have hu : (cs.dropWhile isPySpace).head? = some c := by
    obtain ⟨t, ht⟩ := hpre
    rw [← ht, List.head?_append]
    rw [pyStrip] at hc
    simp [hc]
  have hw := List.head?_dropWhile_not isPySpace cs
  rw [hu] at hw
  simpa using hw

theorem pyStrip_cons_head {c0 : Char} {p2 : List Char} (h : isPySpace c0 = false) :
    (pyStrip (c0 :: p2)).head? = some c0 := by
  rw [pyStrip, dropWhile_cons_ne h]
  have hne : (c0 :: p2).reverse.dropWhile isPySpace ≠ [] := by
    intro he
    rw [List.dropWhile_eq_nil_iff] at he
    have := he c0 (by simp)
    rw [h] at this
    exact Bool.false_ne_true this
  have hpre : ((c0 :: p2).reverse.dropWhile isPySpace).reverse <+: c0 :: p2 := by
    have hsuf : (c0 :: p2).reverse.dropWhile isPySpace <:+ (c0 :: p2).reverse :=
      List.dropWhile_suffix isPySpace
    have := List.reverse_prefix.mpr hsuf
    rwa [List.reverse_reverse] at this
  obtain ⟨tail, htail⟩ := hpre
  rcases hv : ((c0 :: p2).reverse.dropWhile isPySpace).reverse with _ | ⟨a, w⟩
  · exact absurd (by simpa using hv) hne
  · rw [hv] at htail
    have : a = c0 := by
      have := congrArg List.head? htail
      simpa using this
    simp [this]

theorem matchTimePrefix_none_of_head {cs : List Char}
    (h : ∀ c, cs.head? = some c → c.isDigit = false) : matchTimePrefix cs = none := by
  cases cs with
  | nil => rfl
  | cons c cs2 =>
    have hc : c.isDigit = false := h c rfl
    simp [matchTimePrefix, List.takeWhile_cons, hc]

theorem parseTimeCore_none_of_head {cs : List Char}
    (h : ∀ c, cs.head? = some c → c.isDigit = false) : parseTimeCore cs = none := by
  simp [parseTimeCore, matchTimePrefix_none_of_head h]

theorem token_getLast (ds sp : List Char) (pm : Bool) :
    (ds ++ (sp ++ perChars pm)).getLast? = some 'm' := by
  rw [List.getLast?_append, List.getLast?_append]
  cases pm <;> rfl

theorem parse_pipeline_split (cs : List Char)
    (hlow : pyLower cs = cs) (hstrip : pyStrip cs = cs)
    (hcond : (containsSub ['-'] cs || containsSub [' ', 't', 'o', ' '] cs) = true) :
    parse_time_to_minutes (String.mk cs)
      = parseTimeCore (pyStrip ((reSplitDashTo cs).headD [])) := by
  simp only [parse_time_to_minutes, hlow, hstrip, hcond, if_true]

theorem parse_pipeline_nosplit (cs : List Char)
    (hlow : pyLower cs = cs) (hstrip : pyStrip cs = cs)
    (hcond : (containsSub ['-'] cs || containsSub [' ', 't', 'o', ' '] cs) = false) :
    parse_time_to_minutes (String.mk cs) = parseTimeCore cs := by
  simp only [parse_time_to_minutes, hlow, hstrip, hcond, Bool.false_eq_true, if_false]

theorem full_head_not_space (ds1 : List Char) (hne1 : ds1 ≠ [])
    (hd1 : ∀ c ∈ ds1, c ∈ digitChars) (r : List Char) :
    ∀ c, (ds1 ++ r).head? = some c → isPySpace c = false := by
  intro c hc
  cases ds1 with
  | nil => exact absurd rfl hne1
  | cons d ds12 =>
    simp only [List.cons_append, List.head?_cons, Option.some.injEq] at hc
    subst hc
    exact (digit_facts d (hd1 d (by simp))).2.2.1

theorem parse_time_range_start_dash (ds1 sp1 : List Char) (pm1 : Bool)
    (ds2 sp2 : List Char) (pm2 : Bool)
    (hne1 : ds1 ≠ []) (hd1 : ∀ c ∈ ds1, c ∈ digitChars) (hsp1 : ∀ c ∈ sp1, c = ' ')
    (hd2 : ∀ c ∈ ds2, c ∈ digitChars) (hsp2 : ∀ c ∈ sp2, c = ' ') :
    parse_time_to_minutes (String.mk ((ds1 ++ (sp1 ++ perChars pm1))
        ++ '-' :: (ds2 ++ (sp2 ++ perChars pm2))))
      = some (minutesOf (digitsToNat ds1) pm1) := by
  have hch1 := token_char_facts ds1 sp1 pm1 hd1 hsp1
  have hch2 := token_char_facts ds2 sp2 pm2 hd2 hsp2
  have hfacts : ∀ c ∈ (ds1 ++ (sp1 ++ perChars pm1))
      ++ '-' :: (ds2 ++ (sp2 ++ perChars pm2)), c.toLower = c ∧ c ≠ 't' := by
    intro c hc
    rcases List.mem_append.mp hc with h | h
    · exact ⟨(hch1 c h).1, (hch1 c h).2.1⟩
    · rcases List.mem_cons.mp h with h | h
      · subst h; exact ⟨by decide, by decide⟩
      · exact ⟨(hch2 c h).1, (hch2 c h).2.1⟩
  have hlow := pyLower_eq_self fun c hc => (hfacts c hc).1
  have hlast : ∀ c, ((ds1 ++ (sp1 ++ perChars pm1))
      ++ '-' :: (ds2 ++ (sp2 ++ perChars pm2))).getLast? = some c →
      isPySpace c = false := by
    intro c hc
    have h2 : ('-' :: (ds2 ++ (sp2 ++ perChars pm2))).getLast? = some 'm' := by
      show (['-'] ++ (ds2 ++ (sp2 ++ perChars pm2))).getLast? = some 'm'
      rw [List.getLast?_append, token_getLast ds2 sp2 pm2]
      rfl
    rw [List.getLast?_append, h2] at hc
    simp only [Option.or_some, Option.some.injEq] at hc
    rw [← hc]
    decide
  have hhead : ∀ c, ((ds1 ++ (sp1 ++ perChars pm1))
      ++ '-' :: (ds2 ++ (sp2 ++ perChars pm2))).head? = some c →
      isPySpace c = false := by
    intro c hc
    rw [List.append_assoc] at hc
    exact full_head_not_space ds1 hne1 hd1 _ c hc
  have hstrip := pyStrip_eq_self hhead hlast
  have hdash : containsSub ['-'] ((ds1 ++ (sp1 ++ perChars pm1))
      ++ '-' :: (ds2 ++ (sp2 ++ perChars pm2))) = true :=
    containsSub_append_self ['-'] _ _
  have hsplit := reSplit_noT ((ds1 ++ (sp1 ++ perChars pm1))
      ++ '-' :: (ds2 ++ (sp2 ++ perChars pm2))).length []
    _ (fun c hc => (hfacts c hc).2)
  rw [parse_pipeline_split _ hlow hstrip (by rw [hdash]; rfl)]
  rw [reSplitDashTo, hsplit]
  simp only [List.reverse_nil, List.nil_append, List.headD_cons]
  rw [hstrip]
  have hassoc : (ds1 ++ (sp1 ++ perChars pm1))
      ++ '-' :: (ds2 ++ (sp2 ++ perChars pm2))
      = ds1 ++ (sp1 ++ (perChars pm1
        ++ '-' :: (ds2 ++ (sp2 ++ perChars pm2)))) := by
    simp [List.append_assoc]
  rw [hassoc, parseTimeCore_general ds1 sp1 pm1 _ hne1 hd1 hsp1]

theorem parse_time_range_start_to (ds1 sp1 : List Char) (pm1 : Bool)
    (ds2 sp2 : List Char) (pm2 : Bool)
    (hne1 : ds1 ≠ []) (hd1 : ∀ c ∈ ds1, c ∈ digitChars) (hsp1 : ∀ c ∈ sp1, c = ' ')
    (hd2 : ∀ c ∈ ds2, c ∈ digitChars) (hsp2 : ∀ c ∈ sp2, c = ' ') :
    parse_time_to_minutes (String.mk ((ds1 ++ (sp1 ++ perChars pm1))
        ++ ' ' :: 't' :: 'o' :: ' ' :: (ds2 ++ (sp2 ++ perChars pm2))))
      = some (minutesOf (digitsToNat ds1) pm1) := by
  have hch1 := token_char_facts ds1 sp1 pm1 hd1 hsp1
  have hch2 := token_char_facts ds2 sp2 pm2 hd2 hsp2
  have hfacts : ∀ c ∈ (ds1 ++ (sp1 ++ perChars pm1))
      ++ ' ' :: 't' :: 'o' :: ' ' :: (ds2 ++ (sp2 ++ perChars pm2)),
      c.toLower = c := by
    intro c hc
    rcases List.mem_append.mp hc with h | h
    · exact (hch1 c h).1
    · rcases List.mem_cons.mp h with h | h
      · subst h; decide
      · rcases List.mem_cons.mp h with h | h
        · subst h; decide
        · rcases List.mem_cons.mp h with h | h
          · subst h; decide
          · rcases List.mem_cons.mp h with h | h
            · subst h; decide
            · exact (hch2 c h).1
  have hlow := pyLower_eq_self hfacts
  have hlast : ∀ c, ((ds1 ++ (sp1 ++ perChars pm1))
      ++ ' ' :: 't' :: 'o' :: ' ' :: (ds2 ++ (sp2 ++ perChars pm2))).getLast?
        = some c → isPySpace c = false := by
    intro c hc
    have h2 : (' ' :: 't' :: 'o' :: ' ' :: (ds2 ++ (sp2 ++ perChars pm2))).getLast?
        = some 'm' := by
      show ([' ', 't', 'o', ' '] ++ (ds2 ++ (sp2 ++ perChars pm2))).getLast?
        = some 'm'
      rw [List.getLast?_append, token_getLast ds2 sp2 pm2]
      rfl
    rw [List.getLast?_append, h2] at hc
    simp only [Option.or_some, Option.some.injEq] at hc
    rw [← hc]
    decide
  have hhead : ∀ c, ((ds1 ++ (sp1 ++ perChars pm1))
      ++ ' ' :: 't' :: 'o' :: ' ' :: (ds2 ++ (sp2 ++ perChars pm2))).head?
        = some c → isPySpace c = false := by
    intro c hc
    rw [List.append_assoc] at hc
    exact full_head_not_space ds1 hne1 hd1 _ c hc
  have hstrip := pyStrip_eq_self hhead hlast
  have hto : containsSub [' ', 't', 'o', ' ']
      ((ds1 ++ (sp1 ++ perChars pm1))
        ++ ' ' :: 't' :: 'o' :: ' ' :: (ds2 ++ (sp2 ++ perChars pm2))) = true :=
    containsSub_append_self [' ', 't', 'o', ' '] _ _
  have hlen : ((ds1 ++ (sp1 ++ perChars pm1))
      ++ ' ' :: 't' :: 'o' :: ' ' :: (ds2 ++ (sp2 ++ perChars pm2))).length
      = (ds1 ++ (sp1 ++ perChars pm1)).length + 1
        + (3 + (ds2 ++ (sp2 ++ perChars pm2)).length) := by
    simp
    omega
  have hsplit := reSplit_sep_prefix (ds1 ++ (sp1 ++ perChars pm1))
    (fun c hc => (hch1 c hc).2.1) []
    (ds2 ++ (sp2 ++ perChars pm2)) (3 + (ds2 ++ (sp2 ++ perChars pm2)).length)
  rw [parse_pipeline_split _ hlow hstrip (by rw [hto, Bool.or_true])]
  rw [reSplitDashTo, hlen, hsplit]
  simp only [List.reverse_nil, List.nil_append, List.headD_cons]
  rw [pyStrip_eq_self (full_head_not_space ds1 hne1 hd1 _)
    (fun c hc => by rw [token_getLast ds1 sp1 pm1] at hc; simp at hc; rw [← hc]; decide)]
  have := parseTimeCore_general ds1 sp1 pm1 [] hne1 hd1 hsp1
  simpa using this

theorem takeWhile_dropWhile_append_ne {q : Char → Bool} {l : List Char}
    (h : l.dropWhile q ≠ []) (tail : List Char) :
    (l ++ tail).takeWhile q = l.takeWhile q ∧
    (l ++ tail).dropWhile q = l.dropWhile q ++ tail := by
  have hcat : l.takeWhile q ++ l.dropWhile q = l :=
    List.takeWhile_append_dropWhile q l
  have hlen : (l.takeWhile q).length ≠ l.length := by
    intro he
    have hl := congrArg List.length hcat
    rw [List.length_append, he] at hl
    have h0 : (l.dropWhile q).length = 0 := by omega
    exact h (List.length_eq_zero.mp h0)
  have hie : (l.dropWhile q).isEmpty = false := by
    cases hdw : l.dropWhile q with
    | nil => exact absurd hdw h
    | cons _ _ => rfl
  constructor
  · rw [List.takeWhile_append, if_neg hlen]
  · rw [List.dropWhile_append, hie]
    simp

/-- A successful anchored match of `(\d+)\s*(am|pm)` is preserved, with the
same captures, when more text is appended: the match never consumes the
whole prefix it is run on. -/
theorem matchTimePrefix_append_some {p : List Char} {r : Nat × Bool}
    (tail : List Char) (h : matchTimePrefix p = some r) :
    matchTimePrefix (p ++ tail) = some r := by
  simp only [matchTimePrefix] at h
  split at h
  · exact absurd h (by simp)
  · rename_i hne
    split at h
    · rename_i r2 heq
      have hd0 : p.dropWhile Char.isDigit ≠ [] := by
        intro he
        rw [he] at heq
        simp at heq
      have hs0 : (p.dropWhile Char.isDigit).dropWhile isPySpace ≠ [] := by
        rw [heq]
        simp
      obtain ⟨ht1, hdr1⟩ := takeWhile_dropWhile_append_ne hd0 tail
      obtain ⟨_, hdr2⟩ := takeWhile_dropWhile_append_ne hs0 tail
      simp only [matchTimePrefix, ht1, hdr1, hdr2, heq, List.cons_append]
      rw [if_neg hne]
      exact h
    · rename_i r2 heq
      have hd0 : p.dropWhile Char.isDigit ≠ [] := by
        intro he
        rw [he] at heq
        simp at heq
      have hs0 : (p.dropWhile Char.isDigit).dropWhile isPySpace ≠ [] := by
        rw [heq]
        simp
      obtain ⟨ht1, hdr1⟩ := takeWhile_dropWhile_append_ne hd0 tail
      obtain ⟨_, hdr2⟩ := takeWhile_dropWhile_append_ne hs0 tail
      simp only [matchTimePrefix, ht1, hdr1, hdr2, heq, List.cons_append]
      rw [if_neg hne]
      exact h
    · exact absurd h (by simp)

theorem pyStrip_prefix_of_head {c0 : Char} {p2 : List Char}
    (h : isPySpace c0 = false) : pyStrip (c0 :: p2) <+: c0 :: p2 := by
  rw [pyStrip, dropWhile_cons_ne h]
  have hsuf : (c0 :: p2).reverse.dropWhile isPySpace <:+ (c0 :: p2).reverse :=
    List.dropWhile_suffix isPySpace
  have := List.reverse_prefix.mpr hsuf
  rwa [List.reverse_reverse] at this

/-- The None clause: whenever the leading text of the lowercased, stripped
input is not a `(\d+)\s*(am|pm)` expression, `_parse_time_to_minutes`
returns `None` — also for digit-leading non-time inputs such as `12` or
`8x`.  In the range branch the regex is re-run on a prefix of the text
(the first split component, re-stripped), so a match there would lift to a
match on the whole text by `matchTimePrefix_append_some`. -/
theorem parse_none_of_no_leading_time (s : String)
    (h : matchTimePrefix (pyStrip (pyLower s.data)) = none) :
    parse_time_to_minutes s = none := by
  by_cases hb : (containsSub ['-'] (pyStrip (pyLower s.data))
      || containsSub [' ', 't', 'o', ' '] (pyStrip (pyLower s.data))) = true
  · obtain ⟨p, hp, hpre⟩ := reSplit_head_prefix (pyStrip (pyLower s.data)).length []
      (pyStrip (pyLower s.data))
    simp only [List.reverse_nil, List.nil_append] at hp
    have hgoal : parse_time_to_minutes s
        = parseTimeCore (pyStrip
            ((reSplitDashTo (pyStrip (pyLower s.data))).headD [])) := by
      simp only [parse_time_to_minutes, hb, if_true]
    rw [hgoal, reSplitDashTo, hp]
    cases hpp : p with
    | nil => rfl
    | cons c0 p2 =>
      rw [hpp] at hpre
      have htc : (pyStrip (pyLower s.data)).head? = some c0 := by
        obtain ⟨tt, htt⟩ := hpre
        rw [← htt]
        simp
      have hsp0 : isPySpace c0 = false :=
        pyStrip_head_not_space (pyLower s.data) c0 htc
      have hm : matchTimePrefix (pyStrip (c0 :: p2)) = none := by
        rcases hmm : matchTimePrefix (pyStrip (c0 :: p2)) with _ | r
        · rfl
        · exfalso
          obtain ⟨tail1, htail1⟩ := pyStrip_prefix_of_head hsp0
          obtain ⟨tail2, htail2⟩ := hpre
          have h1 := matchTimePrefix_append_some tail1 hmm
          rw [htail1] at h1
          have h2 := matchTimePrefix_append_some tail2 h1
          rw [htail2, h] at h2
          exact absurd h2 (by simp)
      simp [parseTimeCore, hm]
  · have hb' : (containsSub ['-'] (pyStrip (pyLower s.data))
        || containsSub [' ', 't', 'o', ' '] (pyStrip (pyLower s.data))) = false := by
      simp only [Bool.not_eq_true] at hb
      exact hb
    simp only [parse_time_to_minutes, hb', Bool.false_eq_true, if_false]
    simp [parseTimeCore, h]

/-- C10: `_parse_time_to_minutes` is total over strings, always returning an
integer or `None`; on a range expression, built from two clock tokens joined
by a dash or by the word `to`, it returns the parse of the range's start
token (in particular `6am to 8am` and `6am-8am` both yield 360); and every
input whose leading text, after the lowercasing and stripping the function
applies, is not a `(\d+)\s*(am|pm)` expression yields `None` — including
digit-leading non-time inputs such as `12` and `8x`. -/
theorem parse_time_total_range_start_and_nondigit :
    (∀ s : String, parse_time_to_minutes s = none ∨
      ∃ n, parse_time_to_minutes s = some n) ∧
    parse_time_to_minutes "6am to 8am" = some 360 ∧
    parse_time_to_minutes "6am-8am" = some 360 ∧
    (∀ (ds1 sp1 : List Char) (pm1 : Bool) (ds2 sp2 : List Char) (pm2 : Bool),
      ds1 ≠ [] → (∀ c ∈ ds1, c ∈ digitChars) → (∀ c ∈ sp1, c = ' ') →
      (∀ c ∈ ds2, c ∈ digitChars) → (∀ c ∈ sp2, c = ' ') →
      parse_time_to_minutes (String.mk ((ds1 ++ (sp1 ++ perChars pm1))
          ++ '-' :: (ds2 ++ (sp2 ++ perChars pm2))))
        = parse_time_to_minutes (String.mk (ds1 ++ (sp1 ++ perChars pm1))) ∧
      parse_time_to_minutes (String.mk ((ds1 ++ (sp1 ++ perChars pm1))
          ++ ' ' :: 't' :: 'o' :: ' ' :: (ds2 ++ (sp2 ++ perChars pm2))))
        = parse_time_to_minutes (String.mk (ds1 ++ (sp1 ++ perChars pm1)))) ∧
    (∀ s : String,
      matchTimePrefix (pyStrip (pyLower s.data)) = none →
      parse_time_to_minutes s = none) ∧
    parse_time_to_minutes "12" = none ∧
    parse_time_to_minutes "8x" = none ∧
    parse_time_to_minutes "noon" = none := by
  refine ⟨?_, by decide, by decide, ?_, parse_none_of_no_leading_time,
    by decide, by decide, by decide⟩
  · intro s
    cases hp : parse_time_to_minutes s with
    | none => exact Or.inl rfl
    | some n => exact Or.inr ⟨n, rfl⟩
  · intro ds1 sp1 pm1 ds2 sp2 pm2 hne1 hd1 hsp1 hd2 hsp2
    constructor
    · rw [parse_time_range_start_dash ds1 sp1 pm1 ds2 sp2 pm2 hne1 hd1 hsp1 hd2 hsp2,
        parse_time_to_minutes_clean hne1 hd1 hsp1]
    · rw [parse_time_range_start_to ds1 sp1 pm1 ds2 sp2 pm2 hne1 hd1 hsp1 hd2 hsp2,
        parse_time_to_minutes_clean hne1 hd1 hsp1]

/-- C10 witness: the range-start clause at the dash range `6am-8am` and the
no-leading-time clause at the digit-leading input `12`. -/
theorem parse_time_total_range_start_and_nondigit_witness :
    (parse_time_to_minutes (String.mk ((['6'] ++ ([] ++ perChars false))
        ++ '-' :: (['8'] ++ ([] ++ perChars false))))
      = parse_time_to_minutes (String.mk (['6'] ++ ([] ++ perChars false)))) ∧
    parse_time_to_minutes "12" = none :=
  ⟨(parse_time_total_range_start_and_nondigit.2.2.2.1 ['6'] [] false ['8'] [] false
      (by decide) (by decide) (by decide) (by decide) (by decide)).1,
   parse_time_total_range_start_and_nondigit.2.2.2.2.1 "12" (by decide)⟩

end Wally
